import Mathlib

/-!
A shallow embedding of the chunked parallel batch processor of
ban/commands/helpers.py: the two chunk sources (the CPython
Pool._get_tasks chunking used for plain sequences and
ChunkedPool._get_tasks_from_query used for SelectQuery inputs), the
worker-side execution wrapper collect_report, and the orchestrator
batch().

Conventions of the embedding:
* A raised Python exception is modelled by its first argument
  (e.args[0]) as a String; fallible code returns Except String.
* The multiprocessing pool is modelled at its interface: it executes
  collect_report on each submitted chunk in some worker process and
  delivers the per-chunk outcomes to the orchestrator in an arbitrary
  arrival order.  Theorems quantify over that order as a permutation
  (or, for aborted runs, a subpermutation) of the per-chunk outcomes,
  which also makes them independent of the worker count.
* The orchestrator loop of batch() is modelled as the trace of
  observable events it performs (merge into the main Reporter, progress
  advance, yield to the caller, finish of the progress bar, printed
  diagnostic, pool.terminate() from the except handler), plus the state
  reached by running that trace.
-/

namespace BanBatch

variable {α β ρ : Type}

/-- Modelled from the spec: the Reporter class (the process-local
diagnostic accumulator of ban.core) is not among the sources under
study; only its callers appear in ban/commands/helpers.py.  Per the
spec it is a buffer of entries supporting record (append one entry),
clear (empty the buffer) and merge (append a list of entries).  The
private buffer attribute of the Python object is named reports here as
well. -/
structure Reporter (ρ : Type) where
  reports : List ρ
deriving Repr, DecidableEq

/-- Modelled from the spec: record(entry) appends one entry to the buffer. -/
def Reporter.record (r : Reporter ρ) (entry : ρ) : Reporter ρ :=
  ⟨r.reports ++ [entry]⟩

/-- Modelled from the spec: clear() empties the buffer. -/
def Reporter.clear (_ : Reporter ρ) : Reporter ρ := ⟨[]⟩

/-- Modelled from the spec: merge(entries) appends entries into this
Reporter's buffer. -/
def Reporter.merge (r : Reporter ρ) (entries : List ρ) : Reporter ρ :=
  ⟨r.reports ++ entries⟩

/-- One execution of the user function on one chunk.  The function talks
to the ambient process-local Reporter (context lookup, never a
parameter), so a single execution is described by the entries it records
(appended to the worker's Reporter while it runs) together with its
outcome: a list of results, or a raised exception. -/
structure UserFn (α β ρ : Type) where
  run : List α → List ρ × Except String (List β)

/-- ban/commands/helpers.py, collect_report (lines 66-72): runs inside a
worker process; looks up the process Reporter, calls func(*chunk), copies
the Reporter's buffer, clears the Reporter and returns (results, reports).
There is no try/finally: when func raises, the copy and the clear are
never reached, so the exception propagates with the worker Reporter
still holding its buffer (previous leftovers plus whatever func recorded
before raising).  The returned pair is (worker Reporter afterwards,
outcome delivered to the pool machinery). -/
def collect_report (func : UserFn α β ρ) (chunk : List α)
    (reporter : Reporter ρ) :
    Reporter ρ × Except String (List β × List ρ) :=
  match func.run chunk with
  | (recorded, Except.ok results) =>
      let reporter : Reporter ρ := ⟨reporter.reports ++ recorded⟩
      let reports := reporter.reports
      (reporter.clear, Except.ok (results, reports))
  | (recorded, Except.error e) =>
      (⟨reporter.reports ++ recorded⟩, Except.error e)

/-- Fuel-driven worker for `chunksOf`; the fuel is an upper bound on the
list length, so that the definition is structurally recursive and
computes by rfl. -/
def chunksGo (fuel : Nat) (C : Nat) (xs : List α) : List (List α) :=
  match fuel, xs with
  | _, [] => []
  | 0, _ :: _ => []
  | fuel + 1, x :: tl =>
      if C = 0 then []
      else (x :: tl).take C :: chunksGo fuel C ((x :: tl).drop C)

/-- The chunking performed by CPython multiprocessing.pool.Pool._get_tasks
(an external collaborator: helpers.py line 98 calls it for plain
sequences): repeatedly take tuple(itertools.islice(it, size)) and stop on
the first empty tuple.  For size = 0 every islice is empty, so the task
generator ends immediately with no chunks at all. -/
def chunksOf (C : Nat) (xs : List α) : List (List α) :=
  chunksGo xs.length C xs

/-- The plain-sequence chunk source, CPython Pool._get_tasks as called by
ChunkedPool.imap_unordered (helpers.py line 98): islice raises ValueError
on a negative size before yielding anything; otherwise the input is cut
into contiguous chunks of size C (none when C = 0). -/
def get_tasks (C : Int) (xs : List α) : Except String (List (List α)) :=
  if C < 0 then
    Except.error "Stop argument for islice() must be None or an integer: 0 <= x <= sys.maxsize."
  else Except.ok (chunksOf C.toNat xs)

/-- The paginated data source of helpers.py (a SelectQuery), reduced to
the interface _get_tasks_from_query consumes: count() and the windowed
fetch list(query.limit(limit).offset(offset)). -/
structure SelectQuery (α : Type) where
  count : Nat
  window : Nat → Nat → List α

/-- A paginated source is consistent with an underlying item list when
its reported count is the list's length and every offset/limit window
returns exactly that slice of the list. -/
def SelectQuery.consistentWith (q : SelectQuery α) (xs : List α) : Prop :=
  q.count = xs.length ∧ ∀ off lim, q.window off lim = (xs.drop off).take lim

/-- Python range(0, stop, step) for a natural stop: raises ValueError on
step = 0, is empty for negative step (counting down from 0 never enters
(0, stop]), and for positive step yields 0, step, 2*step, ... below stop,
i.e. ceil(stop/step) values. -/
def pyRange0 (stop : Nat) (step : Int) : Except String (List Nat) :=
  if step = 0 then Except.error "range() arg 3 must not be zero"
  else if step < 0 then Except.ok []
  else Except.ok (List.range' 0 ((stop + step.toNat - 1) / step.toNat) step.toNat)

/-- ban/commands/helpers.py, ChunkedPool._get_tasks_from_query (lines
77-80): for idx in range(0, query.count(), chunksize) yield
(func, list(query.limit(chunksize).offset(idx))).  The chunk boundaries
come purely from the reported count and the chunk size; each chunk is an
independent offset window. -/
def get_tasks_from_query (C : Int) (q : SelectQuery α) :
    Except String (List (List α)) :=
  match pyRange0 q.count C with
  | Except.error e => Except.error e
  | Except.ok idxs => Except.ok (idxs.map (fun idx => q.window idx C.toNat))

/-- The (results, reports) pair one chunk returns across the
worker/orchestrator boundary. -/
def ResultBatch (β ρ : Type) : Type := List β × List ρ

/-- Executing one chunk in a worker whose Reporter is empty when the
chunk starts (a fresh worker process, or one whose previous chunk
completed normally and was therefore cleared by collect_report): the
outcome delivered to the pool. -/
def execChunk (func : UserFn α β ρ) (chunk : List α) :
    Except String (ResultBatch β ρ) :=
  (collect_report func chunk ⟨[]⟩).2

/-- Observable events of the orchestrator loop in batch()
(helpers.py lines 106-121). -/
inductive Event (β ρ : Type) where
  | merge (reports : List ρ)
  | advance (n : Nat)
  | yieldItem (x : β)
  | finish
  | printErr (msg : String)
  | terminate
deriving Repr, DecidableEq

/-- The event trace batch() performs on a given arrival sequence of
per-chunk outcomes: for each ResultBatch, in arrival order, it merges the
reports into the main Reporter, advances the progress bar by
len(results) and yields the results one by one; after the loop it calls
bar.finish().  The first failed outcome raises inside the for statement;
the except handler prints "\n" + e.args[0] and calls pool.terminate(),
and nothing further happens (the later arrivals are discarded). -/
def batchTrace : List (Except String (ResultBatch β ρ)) → List (Event β ρ)
  | [] => [Event.finish]
  | Except.ok (results, reports) :: rest =>
      Event.merge reports :: Event.advance results.length ::
        (results.map Event.yieldItem ++ batchTrace rest)
  | Except.error e :: _ => [Event.printErr ("\n" ++ e), Event.terminate]

/-- The orchestrator-visible state of one batch() invocation: the main
Reporter's buffer, the cumulative progress advance, whether bar.finish()
ran, the items yielded to the caller in order, the diagnostic printed by
the except handler, whether the except handler called pool.terminate()
(the with-statement also terminates the pool when the generator is
closed, on every path; aborted records only the except-handler call),
and the exception re-raised to the caller, which the except handler
swallows, so it stays none on every path of the code. -/
structure BatchState (β ρ : Type) where
  mainReporter : List ρ
  progress : Nat
  finished : Bool
  yielded : List β
  printed : Option String
  aborted : Bool
  raised : Option String
deriving Repr, DecidableEq

/-- Effect of one orchestrator event on the batch state. -/
def applyEvent (s : BatchState β ρ) : Event β ρ → BatchState β ρ
  | Event.merge reports => { s with mainReporter := s.mainReporter ++ reports }
  | Event.advance n => { s with progress := s.progress + n }
  | Event.yieldItem x => { s with yielded := s.yielded ++ [x] }
  | Event.finish => { s with finished := true }
  | Event.printErr msg => { s with printed := some msg }
  | Event.terminate => { s with aborted := true }

/-- Run a trace of orchestrator events from a state. -/
def runTrace (s : BatchState β ρ) (t : List (Event β ρ)) : BatchState β ρ :=
  t.foldl applyEvent s

/-- The state at the start of a batch() invocation: empty main Reporter
(one fresh Reporter-merge target per invocation), zero progress, nothing
yielded, nothing printed, no abort, no exception re-raised. -/
def initState : BatchState β ρ :=
  { mainReporter := []
    progress := 0
    finished := false
    yielded := []
    printed := none
    aborted := false
    raised := none }

/-- The final state of batch() on a given arrival sequence of per-chunk
outcomes. -/
def batchRun (arrivals : List (Except String (ResultBatch β ρ))) :
    BatchState β ρ :=
  runTrace initState (batchTrace arrivals)

/-- The whole pipeline on a plain sequence input, in the deterministic
schedule where arrival order equals submission order (general schedules
are obtained by permuting the outcome list; with chunk size at most 0
there is at most a chunking error, so every schedule agrees with this
one).  A ValueError raised while the pool's task handler consumes the
task generator is delivered to the result iterator as a failed job
(CPython Pool._handle_tasks), hence reaches batch() as an error arrival
before any chunk outcome. -/
def batchPlain (func : UserFn α β ρ) (xs : List α) (C : Int) :
    BatchState β ρ :=
  match get_tasks C xs with
  | Except.error e => batchRun [Except.error e]
  | Except.ok chunks => batchRun (chunks.map (execChunk func))

/-- The whole pipeline on a paginated (SelectQuery) input, same
conventions as batchPlain. -/
def batchPaged (func : UserFn α β ρ) (q : SelectQuery α) (C : Int) :
    BatchState β ρ :=
  match get_tasks_from_query C q with
  | Except.error e => batchRun [Except.error e]
  | Except.ok chunks => batchRun (chunks.map (execChunk func))

/-! Lemmas about the chunk sources -/

theorem chunksGo_congr (C : Nat) :
    ∀ (fuel₁ : Nat) (xs : List α) (fuel₂ : Nat),
      xs.length ≤ fuel₁ → xs.length ≤ fuel₂ →
      chunksGo fuel₁ C xs = chunksGo fuel₂ C xs := by
  intro fuel₁
  induction fuel₁ with
  | zero =>
    intro xs fuel₂ h₁ h₂
    have hxs : xs = [] := by
      cases xs with
      | nil => rfl
      | cons x tl => simp at h₁
    subst hxs
    cases fuel₂ <;> rfl
  | succ n ih =>
    intro xs fuel₂ h₁ h₂
    cases xs with
    | nil => cases fuel₂ <;> rfl
    | cons x tl =>
      cases fuel₂ with
      | zero => simp at h₂
      | succ m =>
        simp only [chunksGo]
        by_cases hC : C = 0
        · simp [hC]
        · simp only [hC, if_false]
          congr 1
          apply ih
          · simp only [List.length_drop, List.length_cons] at *
            omega
          · simp only [List.length_drop, List.length_cons] at *
            omega

theorem chunksOf_nil (C : Nat) : chunksOf C ([] : List α) = [] := rfl

theorem chunksOf_zero (xs : List α) : chunksOf 0 xs = [] := by
  cases xs <;> simp [chunksOf, chunksGo]

theorem chunksOf_cons {C : Nat} (hC : C ≠ 0) {xs : List α} (hxs : xs ≠ []) :
    chunksOf C xs = xs.take C :: chunksOf C (xs.drop C) := by
  cases xs with
  | nil => exact absurd rfl hxs
  | cons x tl =>
    show chunksGo (tl.length + 1) C (x :: tl) = _
    simp only [chunksGo, hC, if_false]
    congr 1
    apply chunksGo_congr
    · simp only [List.length_drop, List.length_cons]
      omega
    · exact le_rfl

/-- Coverage for the plain-sequence chunking: with a positive chunk size
the concatenation of the chunks is the original input, in order. -/
theorem chunksOf_flatten {C : Nat} (hC : 1 ≤ C) (xs : List α) :
    (chunksOf C xs).flatten = xs := by
  by_cases hxs : xs = []
  · subst hxs; rfl
  · rw [chunksOf_cons (by omega) hxs, List.flatten_cons,
      chunksOf_flatten hC (xs.drop C), List.take_append_drop]
termination_by xs.length
decreasing_by
  simp only [List.length_drop]
  have := List.length_pos.mpr hxs
  omega

/-- One unfolding step of the ceiling division that counts chunks. -/
theorem ceil_div_succ {n k : Nat} (hk : 1 ≤ k) (hn : 1 ≤ n) :
    (n + k - 1) / k = (n - k + k - 1) / k + 1 := by
  have hdiv : ∀ x : Nat, (x + k) / k = x / k + 1 :=
    fun x => Nat.add_div_right x (by omega)
  rcases le_or_lt n k with h | h
  · have e1 : n - k + k - 1 = k - 1 := by omega
    have e2 : n + k - 1 = (n - 1) + k := by omega
    rw [e1, e2, hdiv, Nat.div_eq_of_lt (by omega), Nat.div_eq_of_lt (by omega)]
  · have e1 : n - k + k - 1 = (n - 1 - k) + k := by omega
    have e2 : n + k - 1 = ((n - 1 - k) + k) + k := by omega
    rw [e1, e2]
    simp only [hdiv]

/-- The plain-sequence chunking produces exactly ceil(length / C) chunks. -/
theorem chunksOf_length {C : Nat} (hC : 1 ≤ C) (xs : List α) :
    (chunksOf C xs).length = (xs.length + C - 1) / C := by
  by_cases hxs : xs = []
  · subst hxs
    simp only [chunksOf_nil, List.length_nil]
    exact (Nat.div_eq_of_lt (by omega)).symm
  · have hn : 1 ≤ xs.length := List.length_pos.mpr hxs
    rw [chunksOf_cons (by omega) hxs, List.length_cons,
      chunksOf_length hC (xs.drop C), List.length_drop,
      ← ceil_div_succ hC hn]
termination_by xs.length
decreasing_by
  simp only [List.length_drop]
  omega

/-- Every chunk except possibly the last has size exactly C. -/
theorem chunksOf_getElem?_length {C : Nat} (hC : 1 ≤ C) (xs : List α) :
    ∀ (i : Nat) (l : List α), i + 1 < (chunksOf C xs).length →
      (chunksOf C xs)[i]? = some l → l.length = C := by
  by_cases hxs : xs = []
  · subst hxs
    intro i l hi
    simp [chunksOf_nil] at hi
  · intro i l hi hget
    rw [chunksOf_cons (by omega : C ≠ 0) hxs] at hi hget
    cases i with
    | zero =>
      have hrest : chunksOf C (xs.drop C) ≠ [] := by
        intro hnil
        rw [List.length_cons, hnil] at hi
        simp at hi
      have hdrop : xs.drop C ≠ [] := by
        intro hnil
        exact hrest (by rw [hnil, chunksOf_nil])
      have hlen : C < xs.length := by
        by_contra hle
        push_neg at hle
        exact hdrop (List.drop_eq_nil_of_le hle)
      simp only [List.getElem?_cons_zero, Option.some.injEq] at hget
      subst hget
      rw [List.length_take]
      omega
    | succ j =>
      simp only [List.getElem?_cons_succ] at hget
      simp only [List.length_cons] at hi
      exact chunksOf_getElem?_length hC (xs.drop C) j l (by omega) hget
termination_by xs.length
decreasing_by
  simp only [List.length_drop]
  have := List.length_pos.mpr hxs
  omega

/-- The last chunk has size length mod C, or C when length is a multiple
of C. -/
theorem chunksOf_getLast? {C : Nat} (hC : 1 ≤ C) (xs : List α)
    (hxs : xs ≠ []) :
    ∃ l, (chunksOf C xs).getLast? = some l ∧
      l.length = if xs.length % C = 0 then C else xs.length % C := by
  rw [chunksOf_cons (by omega : C ≠ 0) hxs]
  by_cases hd : xs.drop C = []
  · have hlen : xs.length ≤ C := by
      have := List.length_drop C xs
      rw [hd] at this
      simp at this
      omega
    have hpos : 1 ≤ xs.length := List.length_pos.mpr hxs
    rw [hd, chunksOf_nil]
    refine ⟨xs.take C, rfl, ?_⟩
    rw [List.length_take]
    rcases eq_or_lt_of_le hlen with heq | hlt
    · rw [heq, Nat.mod_self]
      simp
    · rw [Nat.mod_eq_of_lt hlt, if_neg (by omega)]
      omega
  · have hgt : C < xs.length := by
      by_contra hle
      push_neg at hle
      exact hd (List.drop_eq_nil_of_le hle)
    obtain ⟨l, hl, hlen⟩ := chunksOf_getLast? hC (xs.drop C) hd
    have hrest : chunksOf C (xs.drop C) ≠ [] := by
      intro hnil
      rw [hnil] at hl
      simp at hl
    refine ⟨l, ?_, ?_⟩
    · cases hrest2 : chunksOf C (xs.drop C) with
      | nil => exact absurd hrest2 hrest
      | cons b t =>
        rw [hrest2] at hl
        rw [List.getLast?_cons_cons]
        exact hl
    · rw [List.length_drop] at hlen
      have hmod : xs.length % C = (xs.length - C) % C := by
        conv_lhs => rw [show xs.length = (xs.length - C) + C by omega]
        rw [Nat.add_mod_right]
      rw [hmod]
      exact hlen
termination_by xs.length
decreasing_by
  simp only [List.length_drop]
  have := List.length_pos.mpr hxs
  omega

/-- The offset/limit windows produced by range(0, length, k) are exactly
the contiguous chunks of the underlying list. -/
theorem range'_windows {k : Nat} (hk : 1 ≤ k) (xs : List α) :
    (List.range' 0 ((xs.length + k - 1) / k) k).map
        (fun i => (xs.drop i).take k)
      = chunksOf k xs := by
  by_cases hxs : xs = []
  · subst hxs
    simp only [List.length_nil, chunksOf_nil]
    rw [Nat.div_eq_of_lt (by omega)]
    rfl
  · have hn1 : 1 ≤ xs.length := List.length_pos.mpr hxs
    have hn : (xs.length + k - 1) / k
        = ((xs.drop k).length + k - 1) / k + 1 := by
      rw [List.length_drop]
      exact ceil_div_succ hk hn1
    rw [hn, List.range'_succ, List.map_cons, chunksOf_cons (by omega) hxs]
    congr 1
    have hshift : List.range' (0 + k) (((xs.drop k).length + k - 1) / k) k
        = (List.range' 0 (((xs.drop k).length + k - 1) / k) k).map
            (fun i => k + i) := by
      rw [List.map_add_range', Nat.add_comm 0 k]
    rw [hshift, List.map_map]
    have hfun : ((fun i => (xs.drop i).take k) ∘ fun i => k + i)
        = fun i => ((xs.drop k).drop i).take k := by
      funext i
      simp [List.drop_drop]
    rw [hfun]
    exact range'_windows hk (xs.drop k)
termination_by xs.length
decreasing_by
  simp only [List.length_drop]
  omega

/-- On a consistent paginated source with a positive chunk size, the
query chunk source returns exactly the contiguous chunks of the
underlying items. -/
theorem get_tasks_from_query_eq {C : Int} (hC : 1 ≤ C) (q : SelectQuery α)
    (xs : List α) (hq : q.consistentWith xs) :
    get_tasks_from_query C q = Except.ok (chunksOf C.toNat xs) := by
  obtain ⟨hcount, hwin⟩ := hq
  have hk : 1 ≤ C.toNat := by omega
  have hrange : pyRange0 q.count C = Except.ok
      (List.range' 0 ((q.count + C.toNat - 1) / C.toNat) C.toNat) := by
    unfold pyRange0
    rw [if_neg (by omega), if_neg (by omega)]
  have hfun : (fun idx => q.window idx C.toNat)
      = fun idx => (xs.drop idx).take C.toNat := by
    funext idx
    exact hwin idx C.toNat
  simp only [get_tasks_from_query, hrange]
  rw [hcount, hfun, range'_windows hk xs]

/-! Lemmas about the orchestrator loop -/

/-- The events the batch() loop performs for a run of successfully
completed ResultBatches (without the trailing bar.finish()). -/
def okEvents : List (ResultBatch β ρ) → List (Event β ρ)
  | [] => []
  | (results, reports) :: rest =>
      Event.merge reports :: Event.advance results.length ::
        (results.map Event.yieldItem ++ okEvents rest)

theorem batchTrace_ok_append (bs : List (ResultBatch β ρ))
    (arr : List (Except String (ResultBatch β ρ))) :
    batchTrace (bs.map Except.ok ++ arr) = okEvents bs ++ batchTrace arr := by
  induction bs with
  | nil => rfl
  | cons b rest ih =>
    cases b with
    | mk results reports =>
      simp only [List.map_cons, List.cons_append, batchTrace, okEvents,
        List.append_eq, ih, List.append_assoc]

theorem runTrace_cons (s : BatchState β ρ) (e : Event β ρ)
    (t : List (Event β ρ)) :
    runTrace s (e :: t) = runTrace (applyEvent s e) t := rfl

theorem runTrace_append (s : BatchState β ρ) (t₁ t₂ : List (Event β ρ)) :
    runTrace s (t₁ ++ t₂) = runTrace (runTrace s t₁) t₂ :=
  List.foldl_append applyEvent s t₁ t₂

theorem runTrace_yields (s : BatchState β ρ) (rs : List β) :
    runTrace s (rs.map Event.yieldItem) = { s with yielded := s.yielded ++ rs } := by
  induction rs generalizing s with
  | nil => simp [runTrace]
  | cons x tl ih =>
    rw [List.map_cons, runTrace_cons, ih]
    simp [applyEvent]

theorem runTrace_okEvents (s : BatchState β ρ) (bs : List (ResultBatch β ρ)) :
    runTrace s (okEvents bs) =
      { s with mainReporter := s.mainReporter ++ (bs.map Prod.snd).flatten,
               progress := s.progress + (bs.map (fun b => b.1.length)).sum,
               yielded := s.yielded ++ (bs.map Prod.fst).flatten } := by
  induction bs generalizing s with
  | nil => simp [okEvents, runTrace]
  | cons b rest ih =>
    cases b with
    | mk results reports =>
      rw [show okEvents ((results, reports) :: rest)
            = Event.merge reports :: Event.advance results.length ::
                (results.map Event.yieldItem ++ okEvents rest) from rfl,
        runTrace_cons, runTrace_cons, runTrace_append, runTrace_yields, ih]
      simp [applyEvent, List.append_assoc, Nat.add_assoc]

/-- batch() on an all-successful arrival sequence: reports merged in
arrival order, progress advanced by the result counts, every result
yielded in arrival order, progress bar finished, no diagnostic, no
abort, nothing re-raised. -/
theorem batchRun_ok_eq (bs : List (ResultBatch β ρ)) :
    batchRun (bs.map Except.ok) =
      { mainReporter := (bs.map Prod.snd).flatten,
        progress := (bs.map (fun b => b.1.length)).sum,
        finished := true,
        yielded := (bs.map Prod.fst).flatten,
        printed := none,
        aborted := false,
        raised := none } := by
  have h : batchTrace (bs.map Except.ok) = okEvents bs ++ [Event.finish] := by
    have h0 := batchTrace_ok_append bs []
    rw [List.append_nil] at h0
    rw [h0]
    rfl
  rw [batchRun, h, runTrace_append, runTrace_okEvents]
  simp [runTrace, applyEvent, initState]

/-- batch() on an arrival sequence whose first failure comes after the
batches bs: the loop processes bs, then the for statement raises, the
except handler prints the diagnostic and terminates the pool, and the
generator ends; no finish, nothing re-raised, later arrivals ignored. -/
theorem batchRun_abort_eq (bs : List (ResultBatch β ρ)) (e : String)
    (rest : List (Except String (ResultBatch β ρ))) :
    batchRun (bs.map Except.ok ++ Except.error e :: rest) =
      { mainReporter := (bs.map Prod.snd).flatten,
        progress := (bs.map (fun b => b.1.length)).sum,
        finished := false,
        yielded := (bs.map Prod.fst).flatten,
        printed := some ("\n" ++ e),
        aborted := true,
        raised := none } := by
  rw [batchRun, batchTrace_ok_append, runTrace_append, runTrace_okEvents]
  simp [batchTrace, runTrace, applyEvent, initState]

theorem exists_map_ok (arr : List (Except String (ResultBatch β ρ)))
    (h : ∀ a ∈ arr, ∃ b, a = Except.ok b) :
    ∃ bs : List (ResultBatch β ρ), arr = bs.map Except.ok := by
  induction arr with
  | nil => exact ⟨[], rfl⟩
  | cons a rest ih =>
    obtain ⟨b, hb⟩ := h a (by simp)
    obtain ⟨bs, hbs⟩ := ih (fun x hx => h x (by simp [hx]))
    exact ⟨b :: bs, by simp [hb, hbs]⟩

/-- Length of the reports list an arrival carries (0 for a failure). -/
def reportsLen : Except String (ResultBatch β ρ) → Nat
  | Except.ok b => b.2.length
  | Except.error _ => 0

/-- Length of the results list an arrival carries (0 for a failure). -/
def resultsLen : Except String (ResultBatch β ρ) → Nat
  | Except.ok b => b.1.length
  | Except.error _ => 0

theorem subperm_map_sum_le {γ : Type} (g : γ → Nat) (l₁ l₂ : List γ)
    (h : l₁.Subperm l₂) : (l₁.map g).sum ≤ (l₂.map g).sum := by
  obtain ⟨l, hperm, hsub⟩ := h
  calc (l₁.map g).sum = (l.map g).sum := ((hperm.map g).sum_eq).symm
    _ ≤ (l₂.map g).sum :=
        List.Sublist.sum_le_sum (hsub.map g) (fun a _ => Nat.zero_le a)

theorem batchRun_single_error (e : String) :
    batchRun ([Except.error e] : List (Except String (ResultBatch β ρ))) =
      { mainReporter := [], progress := 0, finished := false, yielded := [],
        printed := some ("\n" ++ e), aborted := true, raised := none } := by
  simp [batchRun, batchTrace, runTrace, applyEvent, initState]

/-! The claims -/

/-- C1 counterexample: one failed worker execution with message "boom".
batch() prints the diagnostic and terminates the pool, but the except
handler swallows the exception: nothing is re-raised to the caller of
batch(), so the caller sees the generator simply end — there is no abort
signal beyond the printed text, refuting the claim that the error is
re-surfaced to the caller. -/
theorem C1_counterexample :
    (batchRun ([Except.error "boom"]
        : List (Except String (ResultBatch Nat Nat)))).printed
      = some ("\n" ++ "boom")
  ∧ (batchRun ([Except.error "boom"]
        : List (Except String (ResultBatch Nat Nat)))).aborted = true
  ∧ (batchRun ([Except.error "boom"]
        : List (Except String (ResultBatch Nat Nat)))).raised = none :=
  ⟨rfl, rfl, rfl⟩

/-- C1 (amended): if any worker execution raises, batch() prints the
diagnostic and terminates the pool, but the exception is swallowed by
the except handler: nothing is re-raised to the caller, the progress bar
is never finished, and the caller sees a truncated result stream
consisting of the batches that arrived before the failure; the abort is
observable only through the printed diagnostic and the unfinished
progress indicator, not through an exception. -/
theorem C1_error_swallowed_after_teardown (bs : List (ResultBatch β ρ))
    (e : String) (rest : List (Except String (ResultBatch β ρ))) :
    (batchRun (bs.map Except.ok ++ Except.error e :: rest)).printed
        = some ("\n" ++ e)
  ∧ (batchRun (bs.map Except.ok ++ Except.error e :: rest)).aborted = true
  ∧ (batchRun (bs.map Except.ok ++ Except.error e :: rest)).raised = none
  ∧ (batchRun (bs.map Except.ok ++ Except.error e :: rest)).finished = false
  ∧ (batchRun (bs.map Except.ok ++ Except.error e :: rest)).yielded
        = (bs.map Prod.fst).flatten := by
  rw [batchRun_abort_eq]
  exact ⟨rfl, rfl, rfl, rfl, rfl⟩

/-- C2 counterexample: a user function that records the entry 7 and then
raises "boom".  collect_report has no try/finally, so when the function
raises, the copy and the clear are never executed: the worker Reporter
still holds [7] when the exception propagates, refuting the claim that
the Reporter is cleared before propagation. -/
theorem C2_counterexample :
    (collect_report (⟨fun _ => ([7], Except.error "boom")⟩
        : UserFn Nat Nat Nat) [1] ⟨[]⟩).1.reports = [7]
  ∧ (collect_report (⟨fun _ => ([7], Except.error "boom")⟩
        : UserFn Nat Nat Nat) [1] ⟨[]⟩).2 = Except.error "boom"
  ∧ ¬ (collect_report (⟨fun _ => ([7], Except.error "boom")⟩
        : UserFn Nat Nat Nat) [1] ⟨[]⟩).1.reports = [] :=
  ⟨rfl, rfl, by decide⟩

/-- C2 (amended): when the user function raises, the exception
propagates to the pool machinery unwrapped, but the worker Reporter is
NOT cleared: its buffer keeps its previous content plus every entry the
function recorded before raising, and that buffer is still in place when
the next chunk starts in the same worker process. -/
theorem C2_raise_leaves_reporter_uncleared (func : UserFn α β ρ)
    (chunk : List α) (reporter : Reporter ρ) (recorded : List ρ) (e : String)
    (h : func.run chunk = (recorded, Except.error e)) :
    collect_report func chunk reporter
      = (⟨reporter.reports ++ recorded⟩, Except.error e) := by
  simp [collect_report, h]

theorem C2_raise_leaves_reporter_uncleared_witness :
    collect_report (⟨fun _ => ([7], Except.error "boom")⟩
        : UserFn Nat Nat Nat) [1] ⟨[5]⟩
      = (⟨[5] ++ [7]⟩, Except.error "boom") :=
  C2_raise_leaves_reporter_uncleared
    (⟨fun _ => ([7], Except.error "boom")⟩ : UserFn Nat Nat Nat)
    [1] ⟨[5]⟩ [7] "boom" rfl

/-- C3: for every chunk size C ≥ 1, the concatenation of the chunks the
chunk source passes to the user function is exactly the original input,
both for a plain sequence and for a consistent paginated source — so the
multiset of items across all chunks equals the input exactly once and
each chunk keeps the original order.  Worker count never enters the
chunking. -/
theorem C3_chunk_coverage (C : Int) (hC : 1 ≤ C) (xs : List α)
    (q : SelectQuery α) (hq : q.consistentWith xs) :
    (∃ chunks, get_tasks C xs = Except.ok chunks ∧ chunks.flatten = xs)
  ∧ (∃ chunks, get_tasks_from_query C q = Except.ok chunks
        ∧ chunks.flatten = xs) := by
  have hk : 1 ≤ C.toNat := by omega
  constructor
  · refine ⟨chunksOf C.toNat xs, ?_, chunksOf_flatten hk xs⟩
    simp only [get_tasks, if_neg (by omega : ¬ C < 0)]
  · exact ⟨chunksOf C.toNat xs, get_tasks_from_query_eq hC q xs hq,
      chunksOf_flatten hk xs⟩

theorem C3_chunk_coverage_witness :
    ((∃ chunks, get_tasks 2 [1, 2, 3] = Except.ok chunks
        ∧ chunks.flatten = [1, 2, 3])
  ∧ (∃ chunks, get_tasks_from_query 2
        (⟨3, fun off lim => (([1, 2, 3] : List Nat).drop off).take lim⟩
          : SelectQuery Nat) = Except.ok chunks
        ∧ chunks.flatten = [1, 2, 3])) :=
  C3_chunk_coverage 2 (by decide) [1, 2, 3]
    ⟨3, fun off lim => (([1, 2, 3] : List Nat).drop off).take lim⟩
    ⟨rfl, fun _ _ => rfl⟩

/-- C4: on a consistent paginated source of count items with chunk size
C ≥ 1, the query chunk source produces exactly ceil(count/C) chunks
(written (count + C - 1) / C), each independently fetched by offset in
source order (offsets 0, C, 2C, ...); every chunk except the last has
size exactly C, and the last has size count mod C, or C when count is a
multiple of C. -/
theorem C4_paged_chunk_shape (C : Int) (hC : 1 ≤ C) (q : SelectQuery α)
    (xs : List α) (hq : q.consistentWith xs) :
    ∃ chunks,
      get_tasks_from_query C q = Except.ok chunks
      ∧ chunks = (List.range' 0 ((q.count + C.toNat - 1) / C.toNat)
          C.toNat).map (fun idx => q.window idx C.toNat)
      ∧ chunks.length = (q.count + C.toNat - 1) / C.toNat
      ∧ (∀ (i : Nat) (l : List α), i + 1 < chunks.length →
          chunks[i]? = some l → l.length = C.toNat)
      ∧ (q.count ≠ 0 →
          ∃ l, chunks.getLast? = some l ∧
            l.length = if q.count % C.toNat = 0 then C.toNat
              else q.count % C.toNat) := by
  have hk : 1 ≤ C.toNat := by omega
  obtain ⟨hcount, hwin⟩ := hq
  refine ⟨chunksOf C.toNat xs,
    get_tasks_from_query_eq hC q xs ⟨hcount, hwin⟩, ?_, ?_, ?_, ?_⟩
  · have hfun : (fun idx => q.window idx C.toNat)
        = fun idx => (xs.drop idx).take C.toNat := by
      funext idx
      exact hwin idx C.toNat
    rw [hcount, hfun, range'_windows hk xs]
  · rw [chunksOf_length hk xs, hcount]
  · exact chunksOf_getElem?_length hk xs
  · intro hcnt
    have hxs : xs ≠ [] := by
      intro hnil
      rw [hnil] at hcount
      simp at hcount
      exact hcnt hcount
    rw [hcount]
    exact chunksOf_getLast? hk xs hxs

theorem C4_paged_chunk_shape_witness :
    ∃ chunks,
      get_tasks_from_query 2
          (⟨5, fun off lim => (([0, 1, 2, 3, 4] : List Nat).drop off).take lim⟩
            : SelectQuery Nat) = Except.ok chunks
      ∧ chunks = (List.range' 0
          (((⟨5, fun off lim => (([0, 1, 2, 3, 4] : List Nat).drop off).take lim⟩
            : SelectQuery Nat).count + (2 : Int).toNat - 1) / (2 : Int).toNat)
          (2 : Int).toNat).map
            (fun idx => (⟨5, fun off lim =>
              (([0, 1, 2, 3, 4] : List Nat).drop off).take lim⟩
                : SelectQuery Nat).window idx (2 : Int).toNat)
      ∧ chunks.length = (((⟨5, fun off lim =>
          (([0, 1, 2, 3, 4] : List Nat).drop off).take lim⟩
            : SelectQuery Nat).count + (2 : Int).toNat - 1) / (2 : Int).toNat)
      ∧ (∀ (i : Nat) (l : List Nat), i + 1 < chunks.length →
          chunks[i]? = some l → l.length = (2 : Int).toNat)
      ∧ ((⟨5, fun off lim => (([0, 1, 2, 3, 4] : List Nat).drop off).take lim⟩
            : SelectQuery Nat).count ≠ 0 →
          ∃ l, chunks.getLast? = some l ∧
            l.length = if (⟨5, fun off lim =>
                (([0, 1, 2, 3, 4] : List Nat).drop off).take lim⟩
                  : SelectQuery Nat).count % (2 : Int).toNat = 0
              then (2 : Int).toNat
              else (⟨5, fun off lim =>
                (([0, 1, 2, 3, 4] : List Nat).drop off).take lim⟩
                  : SelectQuery Nat).count % (2 : Int).toNat) :=
  C4_paged_chunk_shape 2 (by decide)
    ⟨5, fun off lim => (([0, 1, 2, 3, 4] : List Nat).drop off).take lim⟩
    [0, 1, 2, 3, 4] ⟨rfl, fun _ _ => rfl⟩

/-- C5 counterexample: plain nonempty input [0] with chunk size 0.  The
islice-based chunking yields no chunks and raises nothing, so batch()
completes silently: nothing printed, nothing raised, no abort,
bar.finish() reached, empty stream — refuting the claim that every
chunk size ≤ 0 fails fast with an error on a nonempty input. -/
theorem C5_counterexample :
    get_tasks 0 ([0] : List Nat) = Except.ok []
  ∧ (batchPlain (⟨fun c => ([], Except.ok c)⟩ : UserFn Nat Nat Nat)
      [0] 0).printed = none
  ∧ (batchPlain (⟨fun c => ([], Except.ok c)⟩ : UserFn Nat Nat Nat)
      [0] 0).raised = none
  ∧ (batchPlain (⟨fun c => ([], Except.ok c)⟩ : UserFn Nat Nat Nat)
      [0] 0).aborted = false
  ∧ (batchPlain (⟨fun c => ([], Except.ok c)⟩ : UserFn Nat Nat Nat)
      [0] 0).finished = true
  ∧ (batchPlain (⟨fun c => ([], Except.ok c)⟩ : UserFn Nat Nat Nat)
      [0] 0).yielded = [] :=
  ⟨rfl, rfl, rfl, rfl, rfl, rfl⟩

/-- C5 (amended): the behavior on chunk size ≤ 0 depends on the input
kind and on the sign.  Plain input with C < 0: islice raises ValueError
before any chunk is produced, so no worker ever executes a chunk and the
batch aborts with the diagnostic printed.  Paginated input with C = 0:
range() raises ValueError before any chunk is produced, same abort.  But
plain input with C = 0 and paginated input with C < 0 raise nothing at
all: the chunk source is simply empty and the batch silently completes
with an empty, apparently successful stream. -/
theorem C5_chunk_size_nonpositive (func : UserFn α β ρ) (xs : List α)
    (q : SelectQuery α) (C : Int) (hC : C ≤ 0) :
    (C < 0 → ∃ e, get_tasks C xs = Except.error e
        ∧ (batchPlain func xs C).printed = some ("\n" ++ e)
        ∧ (batchPlain func xs C).aborted = true
        ∧ (batchPlain func xs C).yielded = [])
  ∧ (C = 0 → get_tasks C xs = Except.ok []
        ∧ (batchPlain func xs C).finished = true
        ∧ (batchPlain func xs C).printed = none
        ∧ (batchPlain func xs C).yielded = [])
  ∧ (C = 0 → ∃ e, get_tasks_from_query C q = Except.error e
        ∧ (batchPaged func q C).printed = some ("\n" ++ e)
        ∧ (batchPaged func q C).aborted = true
        ∧ (batchPaged func q C).yielded = [])
  ∧ (C < 0 → get_tasks_from_query C q = Except.ok []
        ∧ (batchPaged func q C).finished = true
        ∧ (batchPaged func q C).printed = none
        ∧ (batchPaged func q C).yielded = []) := by
  refine ⟨?_, ?_, ?_, ?_⟩
  · intro hneg
    have hget : get_tasks C xs = Except.error
        "Stop argument for islice() must be None or an integer: 0 <= x <= sys.maxsize." := by
      simp only [get_tasks, if_pos hneg]
    have hrun : batchPlain func xs C = batchRun [Except.error
        "Stop argument for islice() must be None or an integer: 0 <= x <= sys.maxsize."] := by
      simp only [batchPlain, hget]
    refine ⟨_, hget, ?_, ?_, ?_⟩ <;> rw [hrun, batchRun_single_error]
  · intro h0
    subst h0
    have hget : get_tasks (0 : Int) xs = Except.ok [] := by
      simp only [get_tasks, if_neg (by omega : ¬ (0 : Int) < 0), Int.toNat_zero,
        chunksOf_zero]
    have hrun : batchPlain func xs 0 = batchRun [] := by
      simp only [batchPlain, hget, List.map_nil]
    exact ⟨hget, by rw [hrun]; rfl, by rw [hrun]; rfl, by rw [hrun]; rfl⟩
  · intro h0
    subst h0
    have hget : get_tasks_from_query (0 : Int) q
        = Except.error "range() arg 3 must not be zero" := by
      simp [get_tasks_from_query, pyRange0]
    have hrun : batchPaged func q 0 = batchRun [Except.error
        "range() arg 3 must not be zero"] := by
      simp only [batchPaged, hget]
    refine ⟨_, hget, ?_, ?_, ?_⟩ <;> rw [hrun, batchRun_single_error]
  · intro hneg
    have hget : get_tasks_from_query C q = Except.ok [] := by
      simp only [get_tasks_from_query, pyRange0, if_neg (by omega : ¬ C = 0),
        if_pos hneg, List.map_nil]
    have hrun : batchPaged func q C = batchRun [] := by
      simp only [batchPaged, hget, List.map_nil]
    exact ⟨hget, by rw [hrun]; rfl, by rw [hrun]; rfl, by rw [hrun]; rfl⟩

theorem C5_chunk_size_nonpositive_witness :
    ((0 : Int) < 0 → ∃ e, get_tasks 0 ([0] : List Nat) = Except.error e
        ∧ (batchPlain (⟨fun c => ([], Except.ok c)⟩ : UserFn Nat Nat Nat)
            [0] 0).printed = some ("\n" ++ e)
        ∧ (batchPlain (⟨fun c => ([], Except.ok c)⟩ : UserFn Nat Nat Nat)
            [0] 0).aborted = true
        ∧ (batchPlain (⟨fun c => ([], Except.ok c)⟩ : UserFn Nat Nat Nat)
            [0] 0).yielded = [])
  ∧ ((0 : Int) = 0 → get_tasks 0 ([0] : List Nat) = Except.ok []
        ∧ (batchPlain (⟨fun c => ([], Except.ok c)⟩ : UserFn Nat Nat Nat)
            [0] 0).finished = true
        ∧ (batchPlain (⟨fun c => ([], Except.ok c)⟩ : UserFn Nat Nat Nat)
            [0] 0).printed = none
        ∧ (batchPlain (⟨fun c => ([], Except.ok c)⟩ : UserFn Nat Nat Nat)
            [0] 0).yielded = [])
  ∧ ((0 : Int) = 0 → ∃ e, get_tasks_from_query 0
          (⟨1, fun _ _ => ([0] : List Nat)⟩ : SelectQuery Nat)
            = Except.error e
        ∧ (batchPaged (⟨fun c => ([], Except.ok c)⟩ : UserFn Nat Nat Nat)
            ⟨1, fun _ _ => ([0] : List Nat)⟩ 0).printed = some ("\n" ++ e)
        ∧ (batchPaged (⟨fun c => ([], Except.ok c)⟩ : UserFn Nat Nat Nat)
            ⟨1, fun _ _ => ([0] : List Nat)⟩ 0).aborted = true
        ∧ (batchPaged (⟨fun c => ([], Except.ok c)⟩ : UserFn Nat Nat Nat)
            ⟨1, fun _ _ => ([0] : List Nat)⟩ 0).yielded = [])
  ∧ ((0 : Int) < 0 → get_tasks_from_query 0
          (⟨1, fun _ _ => ([0] : List Nat)⟩ : SelectQuery Nat) = Except.ok []
        ∧ (batchPaged (⟨fun c => ([], Except.ok c)⟩ : UserFn Nat Nat Nat)
            ⟨1, fun _ _ => ([0] : List Nat)⟩ 0).finished = true
        ∧ (batchPaged (⟨fun c => ([], Except.ok c)⟩ : UserFn Nat Nat Nat)
            ⟨1, fun _ _ => ([0] : List Nat)⟩ 0).printed = none
        ∧ (batchPaged (⟨fun c => ([], Except.ok c)⟩ : UserFn Nat Nat Nat)
            ⟨1, fun _ _ => ([0] : List Nat)⟩ 0).yielded = []) :=
  C5_chunk_size_nonpositive (⟨fun c => ([], Except.ok c)⟩ : UserFn Nat Nat Nat)
    [0] ⟨1, fun _ _ => ([0] : List Nat)⟩ 0 (by decide)

/-- C6: for each ResultBatch, taken in arrival order, batch() emits
exactly the events merge(reports), advance(len(results)) and one yield
per result item, in that order (first conjunct: the shape of the trace
at each successful arrival); consequently after an all-successful run
the main Reporter is the concatenation of the report batches in arrival
order, the progress advances sum to the total result count, every result
item was yielded individually in arrival order, and the progress
indicator was finalized (second conjunct). -/
theorem C6_batch_per_arrival (b : ResultBatch β ρ)
    (rest : List (Except String (ResultBatch β ρ)))
    (bs : List (ResultBatch β ρ)) :
    batchTrace (Except.ok b :: rest)
      = Event.merge b.2 :: Event.advance b.1.length ::
          (b.1.map Event.yieldItem ++ batchTrace rest)
  ∧ batchRun (bs.map Except.ok) =
      { mainReporter := (bs.map Prod.snd).flatten,
        progress := (bs.map (fun x => x.1.length)).sum,
        finished := true,
        yielded := (bs.map Prod.fst).flatten,
        printed := none,
        aborted := false,
        raised := none } := by
  constructor
  · cases b with
    | mk results reports => rfl
  · exact batchRun_ok_eq bs

/-- C7: if the user function records exactly one report entry per input
item (and completes every chunk), then after a successful batch over the
input xs the merged main Reporter holds exactly xs.length entries.  The
arrival order is an arbitrary permutation of the per-chunk outcomes, so
the statement holds for every worker count and schedule, and for every
chunk size C ≥ 1. -/
theorem C7_report_completeness (C : Int) (hC : 1 ≤ C) (xs : List α)
    (func : UserFn α β ρ)
    (hok : ∀ chunk : List α, ∃ recorded results,
      func.run chunk = (recorded, Except.ok results)
        ∧ recorded.length = chunk.length)
    (arr : List (Except String (ResultBatch β ρ)))
    (hperm : arr.Perm ((chunksOf C.toNat xs).map (execChunk func))) :
    (batchRun arr).mainReporter.length = xs.length
      ∧ (batchRun arr).finished = true := by
  have hk : 1 ≤ C.toNat := by omega
  have hexec : ∀ chunk : List α, ∃ recorded results,
      execChunk func chunk = Except.ok (results, recorded)
        ∧ recorded.length = chunk.length := by
    intro chunk
    obtain ⟨recorded, results, hrun, hlen⟩ := hok chunk
    refine ⟨recorded, results, ?_, hlen⟩
    simp [execChunk, collect_report, hrun]
  have hmem : ∀ a ∈ arr, ∃ b, a = Except.ok b := by
    intro a ha
    have ha2 := hperm.subset ha
    obtain ⟨chunk, _, hchunk⟩ := List.mem_map.mp ha2
    obtain ⟨recorded, results, hce, _⟩ := hexec chunk
    exact ⟨(results, recorded), by rw [← hchunk, hce]⟩
  obtain ⟨bs, rfl⟩ := exists_map_ok arr hmem
  rw [batchRun_ok_eq]
  refine ⟨?_, rfl⟩
  have h1 := (hperm.map reportsLen).sum_eq
  have h2 : (bs.map Except.ok).map reportsLen
      = bs.map fun b => b.2.length := by
    rw [List.map_map]
    rfl
  have h3 : ((chunksOf C.toNat xs).map (execChunk func)).map reportsLen
      = (chunksOf C.toNat xs).map List.length := by
    rw [List.map_map]
    apply List.map_congr_left
    intro chunk _
    obtain ⟨recorded, results, hce, hlen⟩ := hexec chunk
    simp only [Function.comp_apply, hce, reportsLen, hlen]
  rw [h2, h3] at h1
  show ((bs.map Prod.snd).flatten).length = xs.length
  rw [List.length_flatten]
  have h4 : List.map List.length (bs.map Prod.snd)
      = bs.map fun b => b.2.length := by
    rw [List.map_map]
    rfl
  rw [h4, h1, ← List.length_flatten, chunksOf_flatten hk]

theorem C7_report_completeness_witness :
    (batchRun ((chunksOf (Int.toNat 2) [1, 2, 3]).map
        (execChunk (⟨fun c => (c.map fun _ => 0, Except.ok c)⟩
          : UserFn Nat Nat Nat)))).mainReporter.length
      = ([1, 2, 3] : List Nat).length
  ∧ (batchRun ((chunksOf (Int.toNat 2) [1, 2, 3]).map
        (execChunk (⟨fun c => (c.map fun _ => 0, Except.ok c)⟩
          : UserFn Nat Nat Nat)))).finished = true :=
  C7_report_completeness 2 (by decide) [1, 2, 3]
    (⟨fun c => (c.map fun _ => 0, Except.ok c)⟩ : UserFn Nat Nat Nat)
    (fun chunk => ⟨chunk.map fun _ => 0, chunk, rfl, by simp⟩)
    _ (List.Perm.refl _)

/-- C8: with a user function returning exactly one result per input
item, the cumulative progress advances sum to exactly xs.length on
successful completion (first conjunct, over every arrival permutation,
hence every worker count), and on abort they sum to at most xs.length;
after the failed arrival no further progress update and no finalize
happen — the state equals the state frozen at the abort, whatever
arrivals were still pending (second conjunct). -/
theorem C8_progress_monotonicity (C : Int) (hC : 1 ≤ C) (xs : List α)
    (func : UserFn α β ρ)
    (hres : ∀ (chunk : List α) (recorded : List ρ) (results : List β),
      func.run chunk = (recorded, Except.ok results) →
        results.length = chunk.length) :
    (∀ arr, arr.Perm ((chunksOf C.toNat xs).map (execChunk func)) →
      (∀ a ∈ arr, ∃ b, a = Except.ok b) →
      (batchRun arr).progress = xs.length
        ∧ (batchRun arr).finished = true)
  ∧ (∀ (bs : List (ResultBatch β ρ)) (e : String)
        (rest : List (Except String (ResultBatch β ρ))),
      (bs.map Except.ok).Subperm ((chunksOf C.toNat xs).map (execChunk func)) →
      (batchRun (bs.map Except.ok ++ Except.error e :: rest)).progress
          ≤ xs.length
      ∧ (batchRun (bs.map Except.ok ++ Except.error e :: rest)).finished
          = false
      ∧ batchRun (bs.map Except.ok ++ Except.error e :: rest)
          = batchRun (bs.map Except.ok ++ [Except.error e])) := by
  have hk : 1 ≤ C.toNat := by omega
  have hpoint : ∀ chunk ∈ chunksOf C.toNat xs,
      resultsLen (execChunk func chunk) ≤ chunk.length := by
    intro chunk _
    rcases hrun : func.run chunk with ⟨recorded, out⟩
    cases out with
    | ok results =>
      have hce : execChunk func chunk = Except.ok (results, recorded) := by
        simp [execChunk, collect_report, hrun]
      rw [hce]
      show results.length ≤ chunk.length
      rw [hres chunk recorded results hrun]
    | error e2 =>
      have hce : execChunk func chunk = Except.error e2 := by
        simp [execChunk, collect_report, hrun]
      rw [hce]
      exact Nat.zero_le _
  constructor
  · intro arr hperm hallok
    obtain ⟨bs, rfl⟩ := exists_map_ok arr hallok
    rw [batchRun_ok_eq]
    refine ⟨?_, rfl⟩
    have h1 := (hperm.map resultsLen).sum_eq
    have h2 : (bs.map Except.ok).map resultsLen
        = bs.map fun b => b.1.length := by
      rw [List.map_map]
      rfl
    have h3 : ((chunksOf C.toNat xs).map (execChunk func)).map resultsLen
        = (chunksOf C.toNat xs).map List.length := by
      rw [List.map_map]
      apply List.map_congr_left
      intro chunk hchunk
      rcases hrun : func.run chunk with ⟨recorded, out⟩
      cases out with
      | ok results =>
        have hce : execChunk func chunk = Except.ok (results, recorded) := by
          simp [execChunk, collect_report, hrun]
        simp only [Function.comp_apply, hce, resultsLen]
        exact hres chunk recorded results hrun
      | error e2 =>
        exfalso
        have hce : execChunk func chunk = Except.error e2 := by
          simp [execChunk, collect_report, hrun]
        have himg : Except.error e2
            ∈ (chunksOf C.toNat xs).map (execChunk func) := by
          rw [← hce]
          exact List.mem_map_of_mem _ hchunk
        have harr := hperm.mem_iff.mpr himg
        obtain ⟨b, _, hb⟩ := List.mem_map.mp harr
        exact absurd hb (by simp)
    rw [h2, h3] at h1
    rw [h1, ← List.length_flatten, chunksOf_flatten hk]
  · intro bs e rest hsub
    rw [batchRun_abort_eq bs e rest]
    refine ⟨?_, rfl, ?_⟩
    · have hle := subperm_map_sum_le resultsLen _ _ hsub
      have h2 : (bs.map Except.ok).map resultsLen
          = bs.map fun b => b.1.length := by
        rw [List.map_map]
        rfl
      rw [h2] at hle
      have h4 : (((chunksOf C.toNat xs).map (execChunk func)).map
            resultsLen).sum
          ≤ ((chunksOf C.toNat xs).map List.length).sum := by
        rw [List.map_map]
        exact List.sum_le_sum hpoint
      have h5 : ((chunksOf C.toNat xs).map List.length).sum = xs.length := by
        rw [← List.length_flatten, chunksOf_flatten hk]
      show (bs.map fun b => b.1.length).sum ≤ xs.length
      omega
    · rw [batchRun_abort_eq bs e []]

theorem C8_progress_monotonicity_witness :
    ((∀ arr, arr.Perm ((chunksOf (Int.toNat 2) [1, 2, 3]).map
          (execChunk (⟨fun c => (c.map fun _ => 0, Except.ok c)⟩
            : UserFn Nat Nat Nat))) →
        (∀ a ∈ arr, ∃ b, a = Except.ok b) →
        (batchRun arr).progress = ([1, 2, 3] : List Nat).length
          ∧ (batchRun arr).finished = true)
    ∧ (∀ (bs : List (ResultBatch Nat Nat)) (e : String)
          (rest : List (Except String (ResultBatch Nat Nat))),
        (bs.map Except.ok).Subperm ((chunksOf (Int.toNat 2) [1, 2, 3]).map
          (execChunk (⟨fun c => (c.map fun _ => 0, Except.ok c)⟩
            : UserFn Nat Nat Nat))) →
        (batchRun (bs.map Except.ok ++ Except.error e :: rest)).progress
            ≤ ([1, 2, 3] : List Nat).length
        ∧ (batchRun (bs.map Except.ok ++ Except.error e :: rest)).finished
            = false
        ∧ batchRun (bs.map Except.ok ++ Except.error e :: rest)
            = batchRun (bs.map Except.ok ++ [Except.error e]))) :=
  C8_progress_monotonicity 2 (by decide) [1, 2, 3]
    (⟨fun c => (c.map fun _ => 0, Except.ok c)⟩ : UserFn Nat Nat Nat)
    (fun chunk recorded results h => by
      cases h
      simp)

/-- C9 counterexample: a paginated source reporting count 5 over only 3
retrievable items ([10, 20, 30]).  With chunk size 2 the chunk source
returns windows [10, 20], [30] and [] without any error, and the batch
completes successfully (nothing printed, bar.finish() reached, the three
retrievable items yielded) — refuting the claim that an inconsistent
count surfaces a SourceExhaustionError and aborts the batch. -/
theorem C9_counterexample :
    get_tasks_from_query 2
        (⟨5, fun off lim => (([10, 20, 30] : List Nat).drop off).take lim⟩
          : SelectQuery Nat)
      = Except.ok [[10, 20], [30], []]
  ∧ (batchPaged (⟨fun c => ([], Except.ok c)⟩ : UserFn Nat Nat Nat)
      ⟨5, fun off lim => (([10, 20, 30] : List Nat).drop off).take lim⟩
      2).printed = none
  ∧ (batchPaged (⟨fun c => ([], Except.ok c)⟩ : UserFn Nat Nat Nat)
      ⟨5, fun off lim => (([10, 20, 30] : List Nat).drop off).take lim⟩
      2).raised = none
  ∧ (batchPaged (⟨fun c => ([], Except.ok c)⟩ : UserFn Nat Nat Nat)
      ⟨5, fun off lim => (([10, 20, 30] : List Nat).drop off).take lim⟩
      2).aborted = false
  ∧ (batchPaged (⟨fun c => ([], Except.ok c)⟩ : UserFn Nat Nat Nat)
      ⟨5, fun off lim => (([10, 20, 30] : List Nat).drop off).take lim⟩
      2).finished = true
  ∧ (batchPaged (⟨fun c => ([], Except.ok c)⟩ : UserFn Nat Nat Nat)
      ⟨5, fun off lim => (([10, 20, 30] : List Nat).drop off).take lim⟩
      2).yielded = [10, 20, 30] :=
  ⟨rfl, rfl, rfl, rfl, rfl, rfl⟩

/-- C9 (amended): no SourceExhaustionError exists.  For every positive
chunk size the paginated chunk source returns ok on every source,
consistent or not, with ceil(count/C) windows computed from the reported
count alone; a count mismatch is silently absorbed: the extra windows
come back smaller or empty and are passed on to the user function. -/
theorem C9_no_source_exhaustion_error (C : Int) (hC : 1 ≤ C)
    (q : SelectQuery α) :
    ∃ chunks, get_tasks_from_query C q = Except.ok chunks
      ∧ chunks.length = (q.count + C.toNat - 1) / C.toNat := by
  have hrange : pyRange0 q.count C = Except.ok
      (List.range' 0 ((q.count + C.toNat - 1) / C.toNat) C.toNat) := by
    unfold pyRange0
    rw [if_neg (by omega), if_neg (by omega)]
  refine ⟨(List.range' 0 ((q.count + C.toNat - 1) / C.toNat) C.toNat).map
      (fun idx => q.window idx C.toNat), ?_, ?_⟩
  · simp only [get_tasks_from_query, hrange]
  · rw [List.length_map, List.length_range']

theorem C9_no_source_exhaustion_error_witness :
    ∃ chunks, get_tasks_from_query 2
        (⟨5, fun off lim => (([10, 20, 30] : List Nat).drop off).take lim⟩
          : SelectQuery Nat)
      = Except.ok chunks
      ∧ chunks.length
        = (((⟨5, fun off lim => (([10, 20, 30] : List Nat).drop off).take lim⟩
            : SelectQuery Nat).count + (2 : Int).toNat - 1) / (2 : Int).toNat) :=
  C9_no_source_exhaustion_error 2 (by decide)
    ⟨5, fun off lim => (([10, 20, 30] : List Nat).drop off).take lim⟩

/-- C10: for the chunk that arrives after the successful batches bs, the
trace of batch() places the merge of that chunk's reports and the
progress advance strictly before every yield of that chunk's result
items (first conjunct: the trace decomposes with merge and advance ahead
of the yields); and at the point where the caller has received any
number n of that chunk's items, the main Reporter already ends with that
chunk's reports (second conjunct) — so whenever the caller holds a
yielded item, the reports of its chunk are present in the main
Reporter. -/
theorem C10_merge_before_yield (bs : List (ResultBatch β ρ))
    (results : List β) (reports : List ρ)
    (rest : List (Except String (ResultBatch β ρ))) :
    batchTrace (bs.map Except.ok ++ Except.ok (results, reports) :: rest)
      = okEvents bs ++ Event.merge reports :: Event.advance results.length ::
          (results.map Event.yieldItem ++ batchTrace rest)
  ∧ ∀ n : Nat,
      (runTrace initState (okEvents bs ++ Event.merge reports ::
          Event.advance results.length ::
          (results.take n).map Event.yieldItem)).mainReporter
        = (bs.map Prod.snd).flatten ++ reports := by
  constructor
  · rw [batchTrace_ok_append]
    rfl
  · intro n
    rw [runTrace_append, runTrace_okEvents, runTrace_cons, runTrace_cons,
      runTrace_yields]
    simp [applyEvent, initState]

end BanBatch
